import Mathlib

/-!
Shallow embedding of the `hw3_api` URL-shortening service (FastAPI + SQLAlchemy +
fastapi-cache/Redis).  The relational table `urls_db` (models.py) is modelled as a
list of rows, the Redis response cache as a list of `(key, cached value, expiry)`
triples, and each endpoint of main.py as a pure function from an `AppState` (plus
the call time and, for create, the randomness consumed by `shortuuid.uuid()`) to a
result paired with the successor state.

The `@cache(expire=60)` decorator on `short_to_orig` is modelled at its interface
level: it stores the endpoint's successful response under a key derived from the
short code for 60 time units, serves a hit without running the endpoint body, and
`FastAPICache.clear(key=...)` removes exactly the entry under that key.  The debug
write of the resolved code to the side file `tw.txt` touches neither the store nor
the cache and is not modelled.
-/

/-- A row of the `urls_db` table (models.py, class `UrlsDB`). -/
structure UrlsDB where
  short : String
  original : String
  registered_at : Nat
  get_num : Nat
  last_time : Option Nat
  deriving Repr, DecidableEq

/-- Response payload of create/update/search endpoints (schemas.py). -/
structure ShortUrlResponse where
  orig_url : String
  short_url : String
  registered_at : Nat
  deriving Repr, DecidableEq

/-- Response payload of the stats endpoint (schemas.py). -/
structure ShortUrlStatsResponse where
  orig_url : String
  short_url : String
  registered_at : Nat
  get_num : Nat
  last_time : Option Nat
  deriving Repr, DecidableEq

/-- Error conditions surfaced by the endpoints: HTTP 404, HTTP 409, and a
primary-key violation raised by the database on a conflicting insert. -/
inductive ApiError where
  | notFound
  | conflict
  | integrityError
  deriving Repr, DecidableEq

deriving instance DecidableEq for Except

/-- The mutable state the endpoints touch: the `urls_db` table and the Redis
cache holding `(key, cached redirect value, expiry time)` entries. -/
structure AppState where
  store : List UrlsDB
  cache : List (String × String × Nat)
  deriving Repr, DecidableEq

/-- The cache key used for the resolve endpoint, `f"short_to_orig:{short_code}"`
(main.py line 30). -/
def cacheKey (short_code : String) : String :=
  "short_to_orig:" ++ short_code

/-- Cache read: an entry answers while its expiry lies in the future. -/
def cacheGet (now : Nat) (cache : List (String × String × Nat)) (key : String) :
    Option String :=
  match cache.find? (fun e => e.1 == key && Nat.blt now e.2.2) with
  | some e => some e.2.1
  | none => none

/-- Cache write with a time-to-live: overwrites any previous entry under `key`. -/
def cacheSet (cache : List (String × String × Nat)) (key value : String)
    (expiresAt : Nat) : List (String × String × Nat) :=
  (key, value, expiresAt) :: cache.filter (fun e => e.1 != key)

/-- Cache deletion of the entry under `key` (`FastAPICache.clear(key=...)`). -/
def cacheClear (cache : List (String × String × Nat)) (key : String) :
    List (String × String × Nat) :=
  cache.filter (fun e => e.1 != key)

/-- main.py `invalidate_cache`: clear the cache entry for `short_code`. -/
def invalidate_cache (short_code : String) (s : AppState) : AppState :=
  { s with cache := cacheClear s.cache (cacheKey short_code) }

/-- The default `shortuuid` alphabet (57 characters). -/
def shortuuidAlphabet : List Char :=
  "23456789ABCDEFGHJKLMNPQRSTUVWXYZabcdefghijkmnopqrstuvwxyz".toList

/-- The digit-extraction loop of `shortuuid.encoding.int_to_string`
(`while number: number, digit = divmod(number, 57)`), written with an explicit
fuel bound: the loop runs at most `number` times, so fuel `number` suffices. -/
def intToDigitsAux : Nat → Nat → List Nat
  | 0, _ => []
  | _ + 1, 0 => []
  | fuel + 1, n + 1 => ((n + 1) % 57) :: intToDigitsAux fuel ((n + 1) / 57)

/-- `shortuuid.encoding.int_to_string(number, alphabet, padding=22)`: collect
base-57 digits little-endian, pad with `alphabet[0]` up to 22, reverse. -/
def int_to_string (number : Nat) : String :=
  let digits := intToDigitsAux number number
  let output := digits.map (fun d => shortuuidAlphabet.getD d ' ')
  let padded := output ++ List.replicate (22 - output.length) (shortuuidAlphabet.getD 0 ' ')
  String.mk padded.reverse

/-- `shortuuid.uuid()`: encode the 128-bit integer of a version-4 UUID.  The
randomness is supplied as `seed`; a UUID's integer value is below `2 ^ 128`. -/
def shortuuid_uuid (seed : Nat) : String :=
  int_to_string (seed % 2 ^ 128)

/-- main.py `generate_short_code`. -/
def generate_short_code (seed : Nat) : String :=
  shortuuid_uuid seed

/-- main.py `short_to_orig` (GET /links/{short_code}) together with its
`@cache(expire=60)` decorator.  On a live cache hit the cached response is
returned and the endpoint body never runs; on a miss the body queries the
store, 404s when the row is absent, otherwise increments `get_num`, sets
`last_time = now`, commits, and the decorator caches the successful response
for 60 time units. -/
def short_to_orig (now : Nat) (short_code : String) (s : AppState) :
    Except ApiError String × AppState :=
  match cacheGet now s.cache (cacheKey short_code) with
  | some cached => (.ok cached, s)
  | none =>
    match s.store.find? (fun r => r.short == short_code) with
    | none => (.error .notFound, s)
    | some url_entry =>
      let updated : UrlsDB :=
        { url_entry with get_num := url_entry.get_num + 1, last_time := some now }
      let store := s.store.map (fun r => if r.short == short_code then updated else r)
      (.ok updated.original,
       { store := store,
         cache := cacheSet s.cache (cacheKey short_code) updated.original (now + 60) })

/-- main.py `create_short` (POST /links/shorten): with an alias, 409 if a row
with that short code exists, else the alias is the code; without an alias the
code comes from `generate_short_code`.  The insert respects the primary key on
`short`: a conflicting insert raises an integrity error.  New rows get
`registered_at = now` and the column defaults `get_num = 0`,
`last_time = NULL`; then the cache entry for the code is invalidated and the
created record is returned. -/
def create_short (now : Nat) (orig_url : String) (alias_url : Option String)
    (seed : Nat) (s : AppState) : Except ApiError ShortUrlResponse × AppState :=
  let codeOrConflict : Except ApiError String :=
    match alias_url with
    | some a =>
      if (s.store.find? (fun r => r.short == a)).isSome then .error .conflict
      else .ok a
    | none => .ok (generate_short_code seed)
  match codeOrConflict with
  | .error e => (.error e, s)
  | .ok short_code =>
    if (s.store.find? (fun r => r.short == short_code)).isSome then
      (.error .integrityError, s)
    else
      let new_url : UrlsDB :=
        { short := short_code, original := orig_url, registered_at := now,
          get_num := 0, last_time := none }
      let s1 : AppState := { store := s.store ++ [new_url], cache := s.cache }
      (.ok { orig_url := orig_url, short_url := short_code,
             registered_at := new_url.registered_at },
       invalidate_cache short_code s1)

/-- main.py `delete_short_url` (DELETE /links/{short_code}): delete all rows
matching the code and commit, then 404 when the row count is zero, else
invalidate the cache entry and confirm. -/
def delete_short_url (short_code : String) (s : AppState) :
    Except ApiError String × AppState :=
  let rowcount := s.store.countP (fun r => r.short == short_code)
  let store := s.store.filter (fun r => r.short != short_code)
  if rowcount = 0 then
    (.error .notFound, { s with store := store })
  else
    (.ok "deleted", invalidate_cache short_code { s with store := store })

/-- main.py `update_original_url` (PUT /links/{short_code}): update
`original` on all rows matching the code, take the returned row, commit; 404
when none matched, else invalidate the cache entry and return the row. -/
def update_original_url (short_code : String) (orig_url : String) (s : AppState) :
    Except ApiError ShortUrlResponse × AppState :=
  let store := s.store.map
    (fun r => if r.short == short_code then { r with original := orig_url } else r)
  match store.find? (fun r => r.short == short_code) with
  | none => (.error .notFound, { s with store := store })
  | some updated_url =>
    (.ok { orig_url := updated_url.original, short_url := updated_url.short,
           registered_at := updated_url.registered_at },
     invalidate_cache short_code { s with store := store })

/-- main.py `get_url_stats` (GET /links/{short_code}/stats): a pure read. -/
def get_url_stats (short_code : String) (s : AppState) :
    Except ApiError ShortUrlStatsResponse × AppState :=
  match s.store.find? (fun r => r.short == short_code) with
  | none => (.error .notFound, s)
  | some u =>
    (.ok { orig_url := u.original, short_url := u.short,
           registered_at := u.registered_at, get_num := u.get_num,
           last_time := u.last_time }, s)

/-- main.py `search_links` (GET /links/search): all rows whose `original`
equals the query, 404 on an empty result. -/
def search_links (original_url : String) (s : AppState) :
    Except ApiError (List ShortUrlResponse) × AppState :=
  let urls_lst := s.store.filter (fun r => r.original == original_url)
  if urls_lst.isEmpty then
    (.error .notFound, s)
  else
    (.ok (urls_lst.map (fun u =>
      { short_url := u.short, orig_url := u.original,
        registered_at := u.registered_at })), s)

/-- One request against the service, with its call time and (for create) the
randomness consumed, plus autonomous expiry of a cache entry. -/
inductive Op where
  | resolve (now : Nat) (short_code : String)
  | create (now : Nat) (orig_url : String) (alias_url : Option String) (seed : Nat)
  | update (short_code orig_url : String)
  | delete (short_code : String)
  | stats (short_code : String)
  | search (original_url : String)
  | expire (key : String)

/-- The state transition performed by one operation. -/
def runOp : Op → AppState → AppState
  | .resolve now c, s => (short_to_orig now c s).2
  | .create now o a seed, s => (create_short now o a seed s).2
  | .update c o, s => (update_original_url c o s).2
  | .delete c, s => (delete_short_url c s).2
  | .stats c, s => (get_url_stats c s).2
  | .search o, s => (search_links o s).2
  | .expire k, s => { s with cache := cacheClear s.cache k }

/-- States reachable from the empty store and empty cache by runs of the
service. -/
inductive Reachable : AppState → Prop
  | init : Reachable ⟨[], []⟩
  | step (op : Op) {s : AppState} : Reachable s → Reachable (runOp op s)

/-! ### Helper lemmas -/

theorem find?_congr {α : Type} {p q : α → Bool} (h : ∀ x, p x = q x) (l : List α) :
    l.find? p = l.find? q := by
  have hpq : p = q := funext h
  rw [hpq]

/-- A keyed in-place row update that preserves the key column commutes with the
keyed lookup. -/
theorem find?_map_key_update (l : List UrlsDB) (c code : String) (g : UrlsDB → UrlsDB)
    (hg : ∀ x, (x.short == c) = true → (g x).short = x.short) :
    (l.map (fun x => if x.short == c then g x else x)).find? (fun x => x.short == code)
      = (l.find? (fun x => x.short == code)).map
          (fun x => if x.short == c then g x else x) := by
  rw [List.find?_map]
  congr 1
  apply find?_congr
  intro x
  simp only [Function.comp]
  by_cases hx : (x.short == c) = true
  · rw [if_pos hx, hg x hx]
  · rw [if_neg hx]

theorem find?_append_singleton {l : List UrlsDB} {p : UrlsDB → Bool}
    (h : l.find? p = none) (x : UrlsDB) (hx : p x = true) :
    (l ++ [x]).find? p = some x := by
  rw [List.find?_append, h]
  simp [List.find?_cons, hx]

theorem cacheGet_cacheClear (now : Nat) (cache : List (String × String × Nat))
    (key : String) : cacheGet now (cacheClear cache key) key = none := by
  unfold cacheGet cacheClear
  have hnone : (cache.filter (fun e => e.1 != key)).find?
      (fun e => e.1 == key && Nat.blt now e.2.2) = none := by
    rw [List.find?_eq_none]
    intro e he
    have hne : (e.1 != key) = true := (List.mem_filter.mp he).2
    have hne' : e.1 ≠ key := bne_iff_ne.mp hne
    simp [Bool.and_eq_true, beq_iff_eq, hne']
  rw [hnone]

theorem cacheKey_inj {a b : String} (h : cacheKey a = cacheKey b) : a = b := by
  unfold cacheKey at h
  have hdata := congrArg String.data h
  rw [String.data_append, String.data_append] at hdata
  exact String.ext (List.append_cancel_left hdata)

theorem int_to_string_length (n : Nat) : 22 ≤ (int_to_string n).length := by
  unfold int_to_string
  simp only [String.length_mk, List.length_reverse, List.length_append,
    List.length_replicate, List.length_map]
  omega

theorem generate_short_code_length (seed : Nat) :
    22 ≤ (generate_short_code seed).length := by
  unfold generate_short_code shortuuid_uuid
  exact int_to_string_length (seed % 2 ^ 128)

theorem generate_short_code_ne_empty (seed : Nat) : generate_short_code seed ≠ "" := by
  have h := generate_short_code_length seed
  intro hc
  rw [hc] at h
  exact absurd h (by decide)

/-! ### Shape lemmas for the endpoints -/

theorem short_to_orig_hit (now : Nat) (code : String) (s : AppState) (v : String)
    (hhit : cacheGet now s.cache (cacheKey code) = some v) :
    short_to_orig now code s = (.ok v, s) := by
  unfold short_to_orig
  rw [hhit]

theorem short_to_orig_miss_absent (now : Nat) (code : String) (s : AppState)
    (hmiss : cacheGet now s.cache (cacheKey code) = none)
    (habs : s.store.find? (fun r => r.short == code) = none) :
    short_to_orig now code s = (.error .notFound, s) := by
  unfold short_to_orig
  rw [hmiss, habs]

theorem short_to_orig_miss_found (now : Nat) (code : String) (s : AppState) (r : UrlsDB)
    (hmiss : cacheGet now s.cache (cacheKey code) = none)
    (hrec : s.store.find? (fun x => x.short == code) = some r) :
    short_to_orig now code s =
      (.ok r.original,
       { store := s.store.map (fun x => if x.short == code then
            { r with get_num := r.get_num + 1, last_time := some now } else x),
         cache := cacheSet s.cache (cacheKey code) r.original (now + 60) }) := by
  unfold short_to_orig
  rw [hmiss, hrec]

theorem update_found (c o : String) (s : AppState) (r : UrlsDB)
    (hrec : s.store.find? (fun x => x.short == c) = some r) :
    update_original_url c o s =
      (.ok { orig_url := o, short_url := r.short, registered_at := r.registered_at },
       invalidate_cache c
         { s with store := s.store.map (fun x => if x.short == c then { x with original := o } else x) }) := by
  have hp := List.find?_some hrec
  have hstore : (s.store.map
      (fun x => if x.short == c then { x with original := o } else x)).find?
        (fun x => x.short == c)
      = some (if r.short == c then { r with original := o } else r) := by
    rw [find?_map_key_update s.store c c (fun x => { x with original := o })
      (fun x _ => rfl), hrec]
    rfl
  simp only [update_original_url]
  rw [hstore]
  rw [if_pos hp]

theorem update_absent (c o : String) (s : AppState)
    (habs : s.store.find? (fun x => x.short == c) = none) :
    update_original_url c o s =
      (.error .notFound,
       { s with store := s.store.map (fun x => if x.short == c then { x with original := o } else x) }) := by
  have hstore : (s.store.map
      (fun x => if x.short == c then { x with original := o } else x)).find?
        (fun x => x.short == c) = none := by
    rw [find?_map_key_update s.store c c (fun x => { x with original := o })
      (fun x _ => rfl), habs]
    rfl
  simp only [update_original_url]
  rw [hstore]

theorem delete_zero (c : String) (s : AppState)
    (hz : s.store.countP (fun r => r.short == c) = 0) :
    delete_short_url c s =
      (.error .notFound, { s with store := s.store.filter (fun r => r.short != c) }) := by
  unfold delete_short_url
  rw [if_pos hz]

theorem delete_pos (c : String) (s : AppState)
    (hz : s.store.countP (fun r => r.short == c) ≠ 0) :
    delete_short_url c s =
      (.ok "deleted",
       invalidate_cache c { s with store := s.store.filter (fun r => r.short != c) }) := by
  unfold delete_short_url
  rw [if_neg hz]

theorem get_url_stats_state (c : String) (s : AppState) :
    (get_url_stats c s).2 = s := by
  unfold get_url_stats
  cases s.store.find? (fun r => r.short == c) <;> rfl

theorem search_links_state (q : String) (s : AppState) :
    (search_links q s).2 = s := by
  unfold search_links
  by_cases h : (s.store.filter (fun r => r.original == q)).isEmpty <;> simp [h]

/-- Inversion of a successful create: the code was free in the store, the new
row carries `registered_at = now`, `get_num = 0`, `last_time = none`, the
response mirrors it, and without an alias the code is the generated one. -/
theorem create_short_ok_inv {now seed : Nat} {o : String} {al : Option String}
    {s : AppState} {resp : ShortUrlResponse} {s₂ : AppState}
    (h : create_short now o al seed s = (.ok resp, s₂)) :
    s.store.find? (fun x => x.short == resp.short_url) = none ∧
    resp = { orig_url := o, short_url := resp.short_url, registered_at := now } ∧
    s₂ = invalidate_cache resp.short_url
           ⟨s.store ++ [⟨resp.short_url, o, now, 0, none⟩], s.cache⟩ ∧
    (al = none → resp.short_url = generate_short_code seed) := by
  unfold create_short at h
  cases al with
  | none =>
    by_cases hf : (s.store.find? (fun x => x.short == generate_short_code seed)).isSome
    · simp [hf] at h
    · simp only [hf, if_false, Bool.false_eq_true, Prod.mk.injEq, Except.ok.injEq] at h
      obtain ⟨hr, hs⟩ := h
      subst hr
      subst hs
      exact ⟨Option.not_isSome_iff_eq_none.mp hf, rfl, rfl, fun _ => rfl⟩
  | some a =>
    by_cases ha : (s.store.find? (fun x => x.short == a)).isSome
    · simp [ha] at h
    · simp only [ha, if_false, Bool.false_eq_true, Prod.mk.injEq, Except.ok.injEq] at h
      obtain ⟨hr, hs⟩ := h
      subst hr
      subst hs
      exact ⟨Option.not_isSome_iff_eq_none.mp ha, rfl, rfl, fun hx => by cases hx⟩

/-! ### The cache is backed by the store on every reachable state -/

/-- Every cache entry is keyed by the short code of some row present in the
store: negative lookups are never cached, and every mutation clears the key
it touches. -/
def CacheBacked (s : AppState) : Prop :=
  ∀ e ∈ s.cache, ∃ r ∈ s.store, e.1 = cacheKey r.short

theorem cacheBacked_of_le {s s' : AppState}
    (hcache : ∀ e ∈ s'.cache, e ∈ s.cache)
    (hstore : ∀ r ∈ s.store, ∃ r' ∈ s'.store, r'.short = r.short)
    (h : CacheBacked s) : CacheBacked s' := by
  intro e he
  obtain ⟨r, hr, hk⟩ := h e (hcache e he)
  obtain ⟨r', hr', hs⟩ := hstore r hr
  exact ⟨r', hr', by rw [hs]; exact hk⟩

theorem update_snd (c o : String) (s : AppState) :
    (update_original_url c o s).2.store
      = s.store.map (fun x => if x.short == c then { x with original := o } else x) ∧
    (∀ e ∈ (update_original_url c o s).2.cache, e ∈ s.cache) := by
  cases hfind : s.store.find? (fun x => x.short == c) with
  | none =>
    rw [update_absent c o s hfind]
    exact ⟨rfl, fun e he => he⟩
  | some r =>
    rw [update_found c o s r hfind]
    exact ⟨rfl, fun e he => (List.mem_filter.mp he).1⟩

theorem cacheBacked_runOp (op : Op) (s : AppState) (h : CacheBacked s) :
    CacheBacked (runOp op s) := by
  cases op with
  | resolve now c =>
    show CacheBacked (short_to_orig now c s).2
    cases hc : cacheGet now s.cache (cacheKey c) with
    | some v => rw [short_to_orig_hit now c s v hc]; exact h
    | none =>
      cases hr : s.store.find? (fun x => x.short == c) with
      | none => rw [short_to_orig_miss_absent now c s hc hr]; exact h
      | some u =>
        rw [short_to_orig_miss_found now c s u hc hr]
        have hu := List.find?_some hr
        have huc : u.short = c := beq_iff_eq.mp hu
        have hfshort : ∀ x : UrlsDB,
            (if x.short == c then
              ({ u with get_num := u.get_num + 1, last_time := some now } : UrlsDB)
             else x).short = x.short := by
          intro x
          by_cases hx : (x.short == c) = true
          · rw [if_pos hx]
            exact huc.trans (beq_iff_eq.mp hx).symm
          · rw [if_neg hx]
        intro e he
        rcases List.mem_cons.mp he with he1 | he2
        · refine ⟨_, List.mem_map.mpr ⟨u, List.mem_of_find?_eq_some hr, rfl⟩, ?_⟩
          rw [he1, hfshort u, huc]
        · obtain ⟨r, hrs, hk⟩ := h e (List.mem_filter.mp he2).1
          exact ⟨_, List.mem_map.mpr ⟨r, hrs, rfl⟩, by rw [hfshort r]; exact hk⟩
  | create now o a seed =>
    show CacheBacked (create_short now o a seed s).2
    unfold create_short
    cases a with
    | none =>
      by_cases hf : (s.store.find? (fun x => x.short == generate_short_code seed)).isSome
      · simpa [hf] using h
      · simp only [hf, if_false, Bool.false_eq_true]
        refine cacheBacked_of_le ?_ ?_ h
        · intro e he
          exact (List.mem_filter.mp he).1
        · intro r hr
          exact ⟨r, List.mem_append.mpr (Or.inl hr), rfl⟩
    | some al =>
      by_cases hf : (s.store.find? (fun x => x.short == al)).isSome
      · simpa [hf] using h
      · simp only [hf, if_false, Bool.false_eq_true]
        refine cacheBacked_of_le ?_ ?_ h
        · intro e he
          exact (List.mem_filter.mp he).1
        · intro r hr
          exact ⟨r, List.mem_append.mpr (Or.inl hr), rfl⟩
  | update c o =>
    show CacheBacked (update_original_url c o s).2
    have hmap : ∀ r ∈ s.store,
        ∃ r' ∈ s.store.map (fun x => if x.short == c then { x with original := o } else x),
          r'.short = r.short := by
      intro r hr
      refine ⟨_, List.mem_map.mpr ⟨r, hr, rfl⟩, ?_⟩
      by_cases hx : (r.short == c) = true
      · rw [if_pos hx]
      · rw [if_neg hx]
    obtain ⟨h1, h2⟩ := update_snd c o s
    refine cacheBacked_of_le h2 ?_ h
    rw [h1]
    exact hmap
  | delete c =>
    show CacheBacked (delete_short_url c s).2
    by_cases hz : s.store.countP (fun r => r.short == c) = 0
    · rw [delete_zero c s hz]
      intro e he
      obtain ⟨r, hr, hk⟩ := h e he
      have hrc : ¬(r.short == c) = true := List.countP_eq_zero.mp hz r hr
      refine ⟨r, List.mem_filter.mpr ⟨hr, ?_⟩, hk⟩
      simp only [bne_iff_ne, ne_eq]
      intro hx
      exact hrc (beq_iff_eq.mpr hx)
    · rw [delete_pos c s hz]
      intro e he
      have hcl := List.mem_filter.mp he
      obtain ⟨r, hr, hk⟩ := h e hcl.1
      have hek : e.1 ≠ cacheKey c := bne_iff_ne.mp hcl.2
      have hrc : r.short ≠ c := by
        intro hx
        exact hek (by rw [hk, hx])
      refine ⟨r, List.mem_filter.mpr ⟨hr, ?_⟩, hk⟩
      exact bne_iff_ne.mpr hrc
  | stats c =>
    show CacheBacked (get_url_stats c s).2
    rw [get_url_stats_state]
    exact h
  | search o =>
    show CacheBacked (search_links o s).2
    rw [search_links_state]
    exact h
  | expire k =>
    intro e he
    exact h e (List.mem_filter.mp he).1

theorem reachable_cacheBacked {s : AppState} (h : Reachable s) : CacheBacked s := by
  induction h with
  | init => intro e he; cases he
  | step op h ih => exact cacheBacked_runOp op _ ih

/-- On a reachable state, a short code with no store row also has no live
cache entry, so `short_to_orig` cannot serve it from the cache. -/
theorem cacheGet_of_absent {s : AppState} (hcb : CacheBacked s) (code : String)
    (now : Nat) (habs : s.store.find? (fun r => r.short == code) = none) :
    cacheGet now s.cache (cacheKey code) = none := by
  unfold cacheGet
  have hnone : s.cache.find? (fun e => e.1 == cacheKey code && Nat.blt now e.2.2) = none := by
    rw [List.find?_eq_none]
    intro e he
    obtain ⟨r, hr, hk⟩ := hcb e he
    have hr' : ¬(r.short == code) = true := List.find?_eq_none.mp habs r hr
    have hrc : r.short ≠ code := fun hx => hr' (beq_iff_eq.mpr hx)
    simp only [Bool.and_eq_true, beq_iff_eq, not_and]
    intro hx
    exact absurd (cacheKey_inj (hk.symm.trans hx)) hrc
  rw [hnone]

theorem find?_filter_ne_self (l : List UrlsDB) (c : String) :
    (l.filter (fun r => r.short != c)).find? (fun r => r.short == c) = none := by
  rw [List.find?_eq_none]
  intro x hx
  have h2 : (x.short != c) = true := (List.mem_filter.mp hx).2
  simp only [bne_iff_ne, ne_eq] at h2
  simp only [beq_iff_eq]
  exact h2

theorem find?_filter_other {l : List UrlsDB} {c code : String} (hne : c ≠ code) :
    (l.filter (fun r => r.short != c)).find? (fun r => r.short == code)
      = l.find? (fun r => r.short == code) := by
  rw [List.find?_filter]
  apply find?_congr
  intro x
  by_cases hx : (x.short == code) = true
  · have hxc : x.short = code := beq_iff_eq.mp hx
    have hbne : (x.short != c) = true := by
      rw [bne_iff_ne, hxc]
      exact fun hcx => hne hcx.symm
    simp [hbne, hx]
  · simp [hx]

theorem delete_snd_store (c : String) (s : AppState) :
    (delete_short_url c s).2.store = s.store.filter (fun r => r.short != c) := by
  by_cases hz : s.store.countP (fun r => r.short == c) = 0
  · rw [delete_zero c s hz]
  · rw [delete_pos c s hz]
    rfl

theorem create_snd (now seed : Nat) (o : String) (al : Option String) (s : AppState) :
    (create_short now o al seed s).2 = s ∨
    ∃ code, s.store.find? (fun x => x.short == code) = none ∧
      (create_short now o al seed s).2
        = invalidate_cache code ⟨s.store ++ [⟨code, o, now, 0, none⟩], s.cache⟩ := by
  unfold create_short
  cases al with
  | none =>
    by_cases hf : (s.store.find? (fun x => x.short == generate_short_code seed)).isSome
    · simp [hf]
    · simp only [hf, if_false, Bool.false_eq_true]
      exact Or.inr ⟨generate_short_code seed, Option.not_isSome_iff_eq_none.mp hf, rfl⟩
  | some a =>
    by_cases ha : (s.store.find? (fun x => x.short == a)).isSome
    · simp [ha]
    · simp only [ha, if_false, Bool.false_eq_true]
      exact Or.inr ⟨a, Option.not_isSome_iff_eq_none.mp ha, rfl⟩

/-! ### Claims -/

/-- C1 counterexample: the claim says every successful resolve increments the
store row's visit count by exactly 1, regardless of cache outcome.  It is
false: on the reachable state below (create "a" at time 0, then resolve it at
time 1, which caches the response), resolving "a" again at time 2 is served
from the cache, succeeds, and leaves the store untouched with `get_num = 1`
instead of incrementing it to 2. -/
theorem C1_counterexample :
    Reachable ⟨[⟨"a", "u", 0, 1, some 1⟩], [("short_to_orig:a", "u", 61)]⟩ ∧
    (short_to_orig 2 "a" ⟨[⟨"a", "u", 0, 1, some 1⟩], [("short_to_orig:a", "u", 61)]⟩).1
      = .ok "u" ∧
    (short_to_orig 2 "a" ⟨[⟨"a", "u", 0, 1, some 1⟩], [("short_to_orig:a", "u", 61)]⟩).2
      = ⟨[⟨"a", "u", 0, 1, some 1⟩], [("short_to_orig:a", "u", 61)]⟩ := by
  refine ⟨?_, by decide, by decide⟩
  have h0 : Reachable ⟨[], []⟩ := Reachable.init
  have h1 := Reachable.step (Op.create 0 "u" (some "a") 0) h0
  have h2 := Reachable.step (Op.resolve 1 "a") h1
  have hrun : runOp (Op.resolve 1 "a") (runOp (Op.create 0 "u" (some "a") 0) ⟨[], []⟩)
      = ⟨[⟨"a", "u", 0, 1, some 1⟩], [("short_to_orig:a", "u", 61)]⟩ := by decide
  rw [hrun] at h2
  exact h2

/-- C1 (amended): a resolve that is served from the Store — a cache miss on an
existing record — returns the record's original URL, increments its
`visit_count` by exactly 1 and sets `last_visited_at` to the current call time
(hence a timestamp ≥ the previous one whenever the clock is monotone); on a
cache hit the endpoint body is skipped and the Store is not written at all
(see the counterexample). -/
theorem C1_visit_recorded_on_cache_miss (now : Nat) (code : String) (s : AppState)
    (r : UrlsDB)
    (hmiss : cacheGet now s.cache (cacheKey code) = none)
    (hrec : s.store.find? (fun x => x.short == code) = some r) :
    (short_to_orig now code s).1 = .ok r.original ∧
    (short_to_orig now code s).2.store.find? (fun x => x.short == code)
      = some { r with get_num := r.get_num + 1, last_time := some now } := by
  have hp := List.find?_some hrec
  have hrc : r.short = code := beq_iff_eq.mp hp
  rw [short_to_orig_miss_found now code s r hmiss hrec]
  refine ⟨rfl, ?_⟩
  show (s.store.map (fun x => if x.short == code then
      ({ r with get_num := r.get_num + 1, last_time := some now } : UrlsDB) else x)).find?
        (fun x => x.short == code) = _
  rw [find?_map_key_update s.store code code
    (fun _ => { r with get_num := r.get_num + 1, last_time := some now })
    (fun x hx => hrc.trans (beq_iff_eq.mp hx).symm), hrec]
  show some (if r.short == code then
      ({ r with get_num := r.get_num + 1, last_time := some now } : UrlsDB) else r) = _
  rw [if_pos hp]

/-- C1 witness: resolving "a" on a cache miss returns its URL and bumps the
row from `get_num = 0, last_time = none` to `get_num = 1, last_time = 1`. -/
theorem C1_witness :
    (short_to_orig 1 "a" ⟨[⟨"a", "u", 0, 0, none⟩], []⟩).1 = .ok "u" ∧
    (short_to_orig 1 "a" ⟨[⟨"a", "u", 0, 0, none⟩], []⟩).2.store.find?
      (fun x => x.short == "a") = some ⟨"a", "u", 0, 1, some 1⟩ :=
  C1_visit_recorded_on_cache_miss 1 "a" ⟨[⟨"a", "u", 0, 0, none⟩], []⟩
    ⟨"a", "u", 0, 0, none⟩ rfl rfl

/-- C2: an update of an existing short code followed immediately by a resolve
of that code returns the new URL — the update clears the cache entry for the
code, so the resolve re-reads the store and serves no stale value. -/
theorem C2_update_then_resolve_returns_new_url (code newUrl : String) (now : Nat)
    (s : AppState) (resp : ShortUrlResponse) (s₂ : AppState)
    (h : update_original_url code newUrl s = (.ok resp, s₂)) :
    (short_to_orig now code s₂).1 = .ok newUrl := by
  cases hfind : s.store.find? (fun x => x.short == code) with
  | none =>
    rw [update_absent code newUrl s hfind] at h
    simp at h
  | some r =>
    rw [update_found code newUrl s r hfind] at h
    have hs₂ : s₂ = invalidate_cache code
        { s with store := s.store.map (fun x => if x.short == code then { x with original := newUrl } else x) } :=
      (congrArg Prod.snd h).symm
    have hmiss : cacheGet now s₂.cache (cacheKey code) = none := by
      rw [hs₂]
      exact cacheGet_cacheClear now s.cache (cacheKey code)
    have hrec2 : s₂.store.find? (fun x => x.short == code)
        = some { r with original := newUrl } := by
      rw [hs₂]
      show (s.store.map (fun x => if x.short == code then
          ({ x with original := newUrl } : UrlsDB) else x)).find?
            (fun x => x.short == code) = _
      rw [find?_map_key_update s.store code code (fun x => { x with original := newUrl })
        (fun x _ => rfl), hfind]
      show some (if r.short == code then ({ r with original := newUrl } : UrlsDB) else r) = _
      rw [if_pos (List.find?_some hfind)]
    rw [short_to_orig_miss_found now code s₂ _ hmiss hrec2]

/-- C2 witness: after updating "a" from "u" to "v", resolving "a" yields "v". -/
theorem C2_witness :
    (short_to_orig 5 "a" ⟨[⟨"a", "v", 0, 0, none⟩], []⟩).1 = .ok "v" :=
  C2_update_then_resolve_returns_new_url "a" "v" 5 ⟨[⟨"a", "u", 0, 0, none⟩], []⟩
    ⟨"v", "a", 0⟩ ⟨[⟨"a", "v", 0, 0, none⟩], []⟩ rfl

/-- C3: a successful create without an alias yields a non-empty short code
(the generated code always has 22 characters), and once the record is stored a
resolve of that code returns the original URL passed to create. -/
theorem C3_create_resolve_roundtrip (now now' seed : Nat) (origUrl : String)
    (s : AppState) (resp : ShortUrlResponse) (s₂ : AppState)
    (h : create_short now origUrl none seed s = (.ok resp, s₂)) :
    resp.short_url ≠ "" ∧ (short_to_orig now' resp.short_url s₂).1 = .ok origUrl := by
  obtain ⟨hfree, hresp, hs₂, hgen⟩ := create_short_ok_inv h
  constructor
  · rw [hgen rfl]
    exact generate_short_code_ne_empty seed
  · have hmiss : cacheGet now' s₂.cache (cacheKey resp.short_url) = none := by
      rw [hs₂]
      exact cacheGet_cacheClear now' s.cache (cacheKey resp.short_url)
    have hrec : s₂.store.find? (fun x => x.short == resp.short_url)
        = some ⟨resp.short_url, origUrl, now, 0, none⟩ := by
      rw [hs₂]
      exact find?_append_singleton hfree _ (beq_iff_eq.mpr rfl)
    rw [short_to_orig_miss_found now' resp.short_url s₂ _ hmiss hrec]

/-- C3 witness: creating "u" with seed 0 yields the 22-character code below,
and resolving that code returns "u". -/
theorem C3_witness :
    ("2222222222222222222222" : String) ≠ "" ∧
    (short_to_orig 3 "2222222222222222222222"
      ⟨[⟨"2222222222222222222222", "u", 0, 0, none⟩], []⟩).1 = .ok "u" :=
  C3_create_resolve_roundtrip 0 3 0 "u" ⟨[], []⟩ ⟨"u", "2222222222222222222222", 0⟩
    ⟨[⟨"2222222222222222222222", "u", 0, 0, none⟩], []⟩ (by decide)

/-- C4: on any reachable state, resolving a short code with no matching store
row fails with Not-Found and returns the state unchanged — no store write and
no cache entry for the negative result.  Reachability supplies the invariant
that the cache never holds a key whose store row is absent, so the lookup
cannot be served (stale) from the cache. -/
theorem C4_resolve_unknown_not_found (now : Nat) (code : String) (s : AppState)
    (hreach : Reachable s)
    (habsent : s.store.find? (fun r => r.short == code) = none) :
    short_to_orig now code s = (.error .notFound, s) :=
  short_to_orig_miss_absent now code s
    (cacheGet_of_absent (reachable_cacheBacked hreach) code now habsent) habsent

/-- C4 witness: resolving "zz" on the empty initial state 404s and leaves the
state unchanged. -/
theorem C4_witness :
    short_to_orig 0 "zz" ⟨[], []⟩ = (.error .notFound, ⟨[], []⟩) :=
  C4_resolve_unknown_not_found 0 "zz" ⟨[], []⟩ Reachable.init rfl

/-- C5: creating with an alias equal to an existing record's short code fails
with Conflict and returns the state unchanged — the existing record keeps all
its fields and no new record is inserted. -/
theorem C5_alias_conflict (now seed : Nat) (origUrl al : String) (s : AppState)
    (r : UrlsDB) (h : s.store.find? (fun x => x.short == al) = some r) :
    create_short now origUrl (some al) seed s = (.error .conflict, s) := by
  unfold create_short
  simp [h]

/-- C5 witness: creating alias "a" when "a" is taken yields Conflict and the
state is untouched. -/
theorem C5_witness :
    create_short 4 "x" (some "a") 0 ⟨[⟨"a", "u", 0, 0, none⟩], []⟩
      = (.error .conflict, ⟨[⟨"a", "u", 0, 0, none⟩], []⟩) :=
  C5_alias_conflict 4 0 "x" "a" ⟨[⟨"a", "u", 0, 0, none⟩], []⟩
    ⟨"a", "u", 0, 0, none⟩ rfl

/-- C6: every record inserted by a successful create is stored with
`registered_at` equal to the call time, `visit_count = 0` and
`last_visited_at` absent, and the response returned to the caller mirrors the
created record (its URL, short code and registration time). -/
theorem C6_created_record_fields (now seed : Nat) (origUrl : String)
    (al : Option String) (s : AppState) (resp : ShortUrlResponse) (s₂ : AppState)
    (h : create_short now origUrl al seed s = (.ok resp, s₂)) :
    s₂.store.find? (fun x => x.short == resp.short_url)
      = some ⟨resp.short_url, resp.orig_url, now, 0, none⟩ ∧
    resp.orig_url = origUrl ∧ resp.registered_at = now := by
  obtain ⟨hfree, hresp, hs₂, _⟩ := create_short_ok_inv h
  have horig : resp.orig_url = origUrl := congrArg ShortUrlResponse.orig_url hresp
  have hreg : resp.registered_at = now := congrArg ShortUrlResponse.registered_at hresp
  refine ⟨?_, horig, hreg⟩
  rw [hs₂, horig]
  exact find?_append_singleton hfree _ (beq_iff_eq.mpr rfl)

/-- C6 witness: creating "u" under alias "a" at time 7 stores the row
`⟨"a", "u", 7, 0, none⟩` and returns it. -/
theorem C6_witness :
    (⟨[⟨"a", "u", 7, 0, none⟩], []⟩ : AppState).store.find? (fun x => x.short == "a")
      = some ⟨"a", "u", 7, 0, none⟩ ∧
    ("u" : String) = "u" ∧ (7 : Nat) = 7 :=
  C6_created_record_fields 7 0 "u" (some "a") ⟨[], []⟩ ⟨"u", "a", 7⟩
    ⟨[⟨"a", "u", 7, 0, none⟩], []⟩ rfl

/-- C7: delete removes exactly the rows matching the short code and confirms
with "deleted"; when zero rows are affected it fails with Not-Found (leaving
the state unchanged); and after a successful delete a resolve of the same
code fails with Not-Found. -/
theorem C7_delete_semantics (code : String) (s : AppState) (now : Nat)
    (res : Except ApiError String) (s₂ : AppState)
    (h : delete_short_url code s = (res, s₂)) :
    match res with
    | .error e => e = .notFound ∧ s.store.countP (fun r => r.short == code) = 0 ∧ s₂ = s
    | .ok v => v = "deleted" ∧ s₂.store = s.store.filter (fun r => r.short != code) ∧
        short_to_orig now code s₂ = (.error .notFound, s₂) := by
  by_cases hz : s.store.countP (fun r => r.short == code) = 0
  · rw [delete_zero code s hz] at h
    have hres : res = .error .notFound := (congrArg Prod.fst h).symm
    have hs₂ : s₂ = { s with store := s.store.filter (fun r => r.short != code) } :=
      (congrArg Prod.snd h).symm
    subst hres
    refine ⟨rfl, hz, ?_⟩
    have hfe : s.store.filter (fun r => r.short != code) = s.store := by
      rw [List.filter_eq_self]
      intro a ha
      rw [bne_iff_ne]
      intro hx
      exact (List.countP_eq_zero.mp hz a ha) (beq_iff_eq.mpr hx)
    rw [hs₂, hfe]
  · rw [delete_pos code s hz] at h
    have hres : res = .ok "deleted" := (congrArg Prod.fst h).symm
    have hs₂ : s₂ = invalidate_cache code
        { s with store := s.store.filter (fun r => r.short != code) } :=
      (congrArg Prod.snd h).symm
    subst hres
    refine ⟨rfl, by rw [hs₂]; rfl, ?_⟩
    have hmiss : cacheGet now s₂.cache (cacheKey code) = none := by
      rw [hs₂]
      exact cacheGet_cacheClear now s.cache (cacheKey code)
    have habs : s₂.store.find? (fun r => r.short == code) = none := by
      rw [hs₂]
      exact find?_filter_ne_self s.store code
    exact short_to_orig_miss_absent now code s₂ hmiss habs

/-- C7 witness: deleting "a" from a one-row store confirms, empties the
store, and a subsequent resolve of "a" 404s. -/
theorem C7_witness :
    ("deleted" : String) = "deleted" ∧
    (⟨[], []⟩ : AppState).store
      = [(⟨"a", "u", 0, 0, none⟩ : UrlsDB)].filter (fun r => r.short != "a") ∧
    short_to_orig 9 "a" ⟨[], []⟩ = (.error .notFound, ⟨[], []⟩) :=
  C7_delete_semantics "a" ⟨[⟨"a", "u", 0, 0, none⟩], []⟩ 9 (.ok "deleted")
    ⟨[], []⟩ rfl

/-- C8: across every operation of the service, a record that exists before and
after the operation never sees its `visit_count` decrease, and its
`registered_at` never changes. -/
theorem C8_visit_count_monotone_registered_at_immutable (op : Op) (s : AppState)
    (code : String) (r r' : UrlsDB)
    (h : s.store.find? (fun x => x.short == code) = some r)
    (h' : (runOp op s).store.find? (fun x => x.short == code) = some r') :
    r.get_num ≤ r'.get_num ∧ r'.registered_at = r.registered_at := by
  cases op with
  | resolve now c =>
    simp only [runOp] at h'
    cases hc : cacheGet now s.cache (cacheKey c) with
    | some v =>
      rw [short_to_orig_hit now c s v hc] at h'
      have h2 : s.store.find? (fun x => x.short == code) = some r' := h'
      rw [h] at h2
      obtain rfl := Option.some_inj.mp h2
      exact ⟨Nat.le_refl _, rfl⟩
    | none =>
      cases hr : s.store.find? (fun x => x.short == c) with
      | none =>
        rw [short_to_orig_miss_absent now c s hc hr] at h'
        have h2 : s.store.find? (fun x => x.short == code) = some r' := h'
        rw [h] at h2
        obtain rfl := Option.some_inj.mp h2
        exact ⟨Nat.le_refl _, rfl⟩
      | some u =>
        rw [short_to_orig_miss_found now c s u hc hr] at h'
        have hu := List.find?_some hr
        have huc : u.short = c := beq_iff_eq.mp hu
        have h2 : (s.store.map (fun x => if x.short == c then
            ({ u with get_num := u.get_num + 1, last_time := some now } : UrlsDB) else x)).find?
              (fun x => x.short == code) = some r' := h'
        rw [find?_map_key_update s.store c code
          (fun _ => { u with get_num := u.get_num + 1, last_time := some now })
          (fun x hx => huc.trans (beq_iff_eq.mp hx).symm), h] at h2
        have h3 : some (if r.short == c then
            ({ u with get_num := u.get_num + 1, last_time := some now } : UrlsDB) else r)
            = some r' := h2
        obtain rfl := Option.some_inj.mp h3
        by_cases hrc : (r.short == c) = true
        · rw [if_pos hrc]
          have hr2 := List.find?_some h
          have hcode : r.short = code := beq_iff_eq.mp hr2
          have hceq : c = code := (beq_iff_eq.mp hrc).symm.trans hcode
          subst hceq
          rw [h] at hr
          obtain rfl := Option.some_inj.mp hr
          exact ⟨Nat.le_succ _, rfl⟩
        · rw [if_neg hrc]
          exact ⟨Nat.le_refl _, rfl⟩
  | create now o al seed =>
    simp only [runOp] at h'
    rcases create_snd now seed o al s with hid | ⟨code', hfree, heq⟩
    · rw [hid, h] at h'
      obtain rfl := Option.some_inj.mp h'
      exact ⟨Nat.le_refl _, rfl⟩
    · rw [heq] at h'
      have h2 : (s.store ++ [(⟨code', o, now, 0, none⟩ : UrlsDB)]).find?
          (fun x => x.short == code) = some r' := h'
      rw [List.find?_append, h, Option.or_some] at h2
      obtain rfl := Option.some_inj.mp h2
      exact ⟨Nat.le_refl _, rfl⟩
  | update c o =>
    simp only [runOp] at h'
    obtain ⟨h1, _⟩ := update_snd c o s
    rw [h1, find?_map_key_update s.store c code (fun x => { x with original := o })
      (fun x _ => rfl), h] at h'
    have h3 : some (if r.short == c then ({ r with original := o } : UrlsDB) else r)
        = some r' := h'
    obtain rfl := Option.some_inj.mp h3
    by_cases hrc : (r.short == c) = true
    · rw [if_pos hrc]
      exact ⟨Nat.le_refl _, rfl⟩
    · rw [if_neg hrc]
      exact ⟨Nat.le_refl _, rfl⟩
  | delete c =>
    simp only [runOp] at h'
    rw [delete_snd_store] at h'
    by_cases hcc : c = code
    · subst hcc
      rw [find?_filter_ne_self] at h'
      cases h'
    · rw [find?_filter_other hcc, h] at h'
      obtain rfl := Option.some_inj.mp h'
      exact ⟨Nat.le_refl _, rfl⟩
  | stats c =>
    simp only [runOp, get_url_stats_state] at h'
    rw [h] at h'
    obtain rfl := Option.some_inj.mp h'
    exact ⟨Nat.le_refl _, rfl⟩
  | search o =>
    simp only [runOp, search_links_state] at h'
    rw [h] at h'
    obtain rfl := Option.some_inj.mp h'
    exact ⟨Nat.le_refl _, rfl⟩
  | expire k =>
    simp only [runOp] at h'
    have h2 : s.store.find? (fun x => x.short == code) = some r' := h'
    rw [h] at h2
    obtain rfl := Option.some_inj.mp h2
    exact ⟨Nat.le_refl _, rfl⟩

/-- C8 witness: resolving "a" takes its row from `get_num = 0` to
`get_num = 1` — the count does not decrease and `registered_at` stays 0. -/
theorem C8_witness : (0 : Nat) ≤ 1 ∧ (0 : Nat) = 0 :=
  C8_visit_count_monotone_registered_at_immutable (Op.resolve 1 "a")
    ⟨[⟨"a", "u", 0, 0, none⟩], []⟩ "a" ⟨"a", "u", 0, 0, none⟩
    ⟨"a", "u", 0, 1, some 1⟩ rfl (by decide)

/-- C9: the search endpoint succeeds exactly when some record's
`original_url` is character-for-character equal to the queried URL, returning
precisely the matching records (no normalization, no partial match), and
fails with Not-Found — not an empty-list success — when none matches. -/
theorem C9_search_exact_match (q : String) (s : AppState) :
    match (search_links q s).1 with
    | .ok lst =>
        lst = (s.store.filter (fun r => r.original == q)).map
          (fun u => { short_url := u.short, orig_url := u.original, registered_at := u.registered_at }) ∧
        (∀ e ∈ lst, e.orig_url = q) ∧
        (∀ r ∈ s.store, r.original = q →
          ({ short_url := r.short, orig_url := r.original, registered_at := r.registered_at }
            : ShortUrlResponse) ∈ lst) ∧
        lst ≠ []
    | .error e => e = .notFound ∧ ∀ r ∈ s.store, r.original ≠ q := by
  simp only [search_links]
  by_cases hE : (s.store.filter (fun r : UrlsDB => r.original == q)).isEmpty = true
  · rw [if_pos hE]
    refine ⟨rfl, ?_⟩
    have hnil : s.store.filter (fun r : UrlsDB => r.original == q) = [] :=
      List.isEmpty_iff.mp hE
    intro r hr hq
    have : r ∈ s.store.filter (fun r : UrlsDB => r.original == q) :=
      List.mem_filter.mpr ⟨hr, beq_iff_eq.mpr hq⟩
    rw [hnil] at this
    cases this
  · rw [if_neg hE]
    refine ⟨rfl, ?_, ?_, ?_⟩
    · intro e he
      obtain ⟨u, hu, hue⟩ := List.mem_map.mp he
      have hq : (u.original == q) = true := (List.mem_filter.mp hu).2
      rw [← hue]
      exact beq_iff_eq.mp hq
    · intro r hr hq
      exact List.mem_map.mpr
        ⟨r, List.mem_filter.mpr ⟨hr, beq_iff_eq.mpr hq⟩, rfl⟩
    · intro hnil
      apply hE
      have : s.store.filter (fun r : UrlsDB => r.original == q) = [] := by
        have hmap := congrArg List.length hnil
        rw [List.length_map] at hmap
        exact List.eq_nil_of_length_eq_zero hmap
      rw [this]
      rfl

/-- C10: reading stats is a pure read: for every short code, whether the
record exists or not, the stats endpoint leaves both the store (so
`visit_count` and `last_visited_at` are untouched — a stats read is not a
visit) and the cache exactly as they were. -/
theorem C10_stats_read_only (code : String) (s : AppState) :
    (get_url_stats code s).2 = s :=
  get_url_stats_state code s

